import Mathlib

/-!
Shallow embedding of the core of the `oth` tool (src/main.rs): diff-mode
planning, remote and default-branch resolution, changed-file listing, and
path relativization.  Rust strings are modelled as Lean `String`, Rust
panics as `Option`/`Except` failure, and each blocking git subprocess call
as an oracle function from an argument vector to `Except String String`
(error on non-zero exit, otherwise the trimmed stdout, matching
`git_output` in main.rs lines 66-77).
-/

/-- The constant `RELATIVE_REFERENCE` from main.rs line 13. -/
def RELATIVE_REFERENCE : String := "../"

/-- The constant `REMOTE_FALLBACK` from main.rs line 14. -/
def REMOTE_FALLBACK : String := "origin"

/-- Model of Rust `str::split` on a single separator character, working on
the character list of the string.  Like Rust `split`, the empty input
yields one empty piece, and every separator occurrence opens a new piece. -/
def splitChar (c : Char) : List Char → List (List Char)
  | [] => [[]]
  | x :: xs =>
    if x = c then [] :: splitChar c xs
    else
      match splitChar c xs with
      | [] => [[x]]
      | y :: ys => (x :: y) :: ys

/-- Model of Rust `str::split(c)` returning strings. -/
def splitStr (c : Char) (s : String) : List String :=
  (splitChar c s.toList).map String.mk

/-- The closed enumeration of diff modes, main.rs lines 16-23.  The source
declares exactly these five variants, in this order. -/
inductive DiffMode where
  | Branch
  | Remote
  | Revlist
  | RevlistRemote
  | Upstream
  deriving DecidableEq, Fintype

/-- The parsed command-line arguments, main.rs lines 25-40.  A single
`diff_mode` field holds the one active mode of the invocation. -/
structure Args where
  diff_mode : DiffMode
  editor : Option String
  remote_override : Option String
  selector : Bool

/-- Model of `is_staged`, main.rs lines 97-104: the argument is the raw
stdout of `git diff --cached --shortstat`; staged changes exist iff it is
non-empty. -/
def is_staged (shortstat_stdout : String) : Bool :=
  !shortstat_stdout.isEmpty

/-- The argument vector the source passes to git for the ancestor count,
main.rs lines 185-190 and 195-200. -/
def revListArgs (default_branch : String) : List String :=
  ["rev-list", "--count", "HEAD", "^" ++ default_branch]

/-- Model of the diff-command construction of main.rs lines 172-204.  The
`git` oracle stands for `git_output`: it maps an argument vector to the
trimmed stdout, or to the stderr content on failure; an `expect` on a
failed query is modelled as propagating the error. -/
def planDiffCmd (git : List String → Except String String) (mode : DiffMode)
    (remote default_branch : String) : Except String String :=
  match mode with
  | DiffMode.Branch => Except.ok ("diff " ++ default_branch)
  | DiffMode.Upstream =>
      match git ["branch", "--show-current"] with
      | Except.error e => Except.error e
      | Except.ok branch => Except.ok ("diff " ++ remote ++ "/" ++ branch)
  | DiffMode.Remote => Except.ok ("diff " ++ remote ++ "/" ++ default_branch)
  | DiffMode.Revlist =>
      match git (revListArgs default_branch) with
      | Except.error e => Except.error e
      | Except.ok rev_list_count => Except.ok ("diff HEAD~" ++ rev_list_count)
  | DiffMode.RevlistRemote =>
      match git (revListArgs default_branch) with
      | Except.error e => Except.error e
      | Except.ok rev_list_count =>
          Except.ok ("diff " ++ remote ++ "/HEAD~" ++ rev_list_count)

/-- Model of main.rs lines 172-207: the planned command with the staged
suffix appended when `staged_changes` holds. -/
def fullDiffCmd (git : List String → Except String String) (mode : DiffMode)
    (remote default_branch : String) (staged_changes : Bool) : Except String String :=
  match planDiffCmd git mode remote default_branch with
  | Except.error e => Except.error e
  | Except.ok diff_cmd =>
      Except.ok (if staged_changes then diff_cmd ++ " --cached" else diff_cmd)

/-- Whitespace-token list of a command string, used to state the
`--cached` occurrence counts. -/
def tokens (s : String) : List String :=
  splitStr ' ' s

/-- Model of `get_remote`, main.rs lines 79-95: from the result of the
upstream query, either the fallback remote on error, or the first
slash-separated component of the upstream tracking ref name. -/
def get_remote (upstream_full_name : Except String String) : String :=
  match upstream_full_name with
  | Except.error _ => REMOTE_FALLBACK
  | Except.ok full_name => (splitStr '/' full_name).headD ""

/-- Model of main.rs lines 164-168: the explicit override wins, otherwise
`get_remote` decides. -/
def resolveRemote (remote_override : Option String)
    (upstream_full_name : Except String String) : String :=
  match remote_override with
  | some r => r
  | none => get_remote upstream_full_name

/-- The literal text preceding the captured branch name in the regex of
`get_default_branch`, main.rs line 47. -/
def remoteHeadRef (remote : String) : String :=
  "ref: refs/remotes/" ++ remote ++ "/"

/-- Model of Rust `str::trim`, main.rs line 46: drop whitespace from both
ends (for the ASCII whitespace occurring in git ref files). -/
def trimAscii (s : String) : String :=
  String.mk (((s.toList.dropWhile Char.isWhitespace).reverse.dropWhile
    Char.isWhitespace).reverse)

/-- Leftmost-occurrence search: if `p` occurs as a contiguous sublist of
`s`, return everything after the first occurrence. -/
def findAfter (p : List Char) : List Char → Option (List Char)
  | [] => if List.isPrefixOf p ([] : List Char) then some ([] : List Char) else none
  | x :: xs =>
      if List.isPrefixOf p (x :: xs) then some ((x :: xs).drop p.length)
      else findAfter p xs

/-- Model of `get_default_branch`, main.rs lines 42-52: trim the content
of the remote HEAD file and run the regex
`ref: refs/remotes/<remote>/(.*)` over it, returning the capture.  The
regex is modelled, for a remote name free of regex metacharacters and a
single-line trimmed content, as the leftmost occurrence of the literal
pattern text followed by a capture of everything after it (possibly
empty, since the source uses `(.*)`). -/
def get_default_branch (remote content : String) : Option String :=
  (findAfter (remoteHeadRef remote).toList (trimAscii content).toList).map String.mk

/-- Model of the `.unwrap()` on main.rs line 169: a missing default branch
is a panic, modelled as an error terminating the run. -/
def unwrapDefaultBranch (remote content : String) : Except String String :=
  match get_default_branch remote content with
  | some b => Except.ok b
  | none => Except.error "called Option unwrap on a None value"

/-- Formalisation, from the words of the specification, of the pattern
`ref: refs/remotes/<remote>/(.+)` it states for default-branch
resolution: like `get_default_branch` but the captured suffix must be
non-empty, since `.+` needs at least one character.  Stated only to be
compared with `get_default_branch`, whose regex uses `(.*)`. -/
def claimHeadPattern (remote content : String) : Option String :=
  match findAfter (remoteHeadRef remote).toList (trimAscii content).toList with
  | none => none
  | some [] => none
  | some r => some (String.mk r)

/-- Model of main.rs lines 212-217: split the (trimmed, as returned by
`git_output`) stdout of the `--name-only` diff on newlines and drop the
empty lines. -/
def listFiles (stdout : String) : List String :=
  (splitStr '\n' stdout).filter (fun s => !s.isEmpty)

/-- Outcome of the guard at main.rs lines 219-221: either the run returns
cleanly before relativization, selection and editing, or it continues
with the non-empty file list. -/
inductive RunOutcome where
  | exitClean
  | continueRun (files : List String)
  deriving DecidableEq

/-- Model of main.rs lines 219-221: the empty-list early return. -/
def afterListing (file_names : List String) : RunOutcome :=
  if file_names.isEmpty then RunOutcome.exitClean
  else RunOutcome.continueRun file_names

/-- Model of main.rs lines 128-132: drop one leading slash from the
current-directory string (`starts_with` plus `strip_prefix` on the
one-character pattern). -/
def stripSlash (s : String) : String :=
  match s.toList with
  | '/' :: rest => String.mk rest
  | _ => s

/-- Rust `str::split("/")` as used on main.rs lines 140-141. -/
def splitSlash (s : String) : List String :=
  splitStr '/' s

/-- Model of `Path::new(p).parent()` followed by `to_str()`, main.rs lines
134-138, restricted to relative paths whose components are non-empty and
none of which is a dot component: `none` (a panic in the source) for the
empty path, otherwise everything before the last slash (the empty string
for a bare file name). -/
def pathParent (p : String) : Option String :=
  if p = "" then none
  else some (String.intercalate "/" (splitSlash p).dropLast)

/-- Model of `Path::new(p).file_name()`, main.rs line 139: the final
slash-separated piece, and `none` (a panic of the `expect`) when the
path is empty, is the bare `.` path, or terminates in a `..` component —
all places where Rust `file_name` returns `None`, so there the model
panics exactly like the source.  A final piece that is empty (trailing
slash) or a non-initial `.` is also mapped to `none`; there Rust would
normalize the trailing piece away and name the component before it, but
such pieces, like every dot component, never occur in the git-emitted
`--name-only` file paths `relativize` receives, and on them the model
fails conservatively rather than ever reporting success where the
source panics. -/
def pathFileName (p : String) : Option String :=
  if p = "" then none
  else
    match (splitSlash p).getLast? with
    | none => none
    | some f => if f = "" ∨ f = "." ∨ f = ".." then none else some f

/-- `String::from(RELATIVE_REFERENCE).repeat(n)`, main.rs line 151. -/
def repRef (n : Nat) : String :=
  String.join (List.replicate n RELATIVE_REFERENCE)

/-- The loop of main.rs lines 142-153 followed by the fall-through return
of lines 155-158: walk the components of `from` and of the directory of
`to` in lock-step; at the first index where the `to` directory runs out
or the components differ, emit one parent reference per remaining `from`
component followed by the file name; if the loop completes, return the
unmodified `to` path. -/
def relLoop (to_file to_path : String) : List String → List String → String
  | [], _ => to_path
  | f :: fs, ts =>
      match ts with
      | [] => repRef (fs.length + 1) ++ to_file
      | t :: ts' =>
          if f = t then relLoop to_file to_path fs ts'
          else repRef (fs.length + 1) ++ to_file

/-- Model of `relativize`, main.rs lines 118-159.  A `none` result models
a panic of one of the `expect` calls on lines 133-139. -/
def relativize (from_ to_ : String) : Option String :=
  if from_ = "" then some to_
  else
    match pathParent to_, pathFileName to_ with
    | some to_dir, some to_file =>
        some (relLoop to_file to_ (splitSlash (stripSlash from_)) (splitSlash to_dir))
    | _, _ => none

theorem splitChar_ne_nil (c : Char) (l : List Char) : splitChar c l ≠ [] := by
  induction l with
  | nil => simp [splitChar]
  | cons x xs ih =>
    by_cases hx : x = c
    · simp [splitChar, hx]
    · simp only [splitChar, if_neg hx]
      cases h : splitChar c xs with
      | nil => simp
      | cons y ys => simp

/-- Splitting distributes over a separator occurrence. -/
theorem splitChar_append_sep (c : Char) (a b : List Char) :
    splitChar c (a ++ c :: b) = splitChar c a ++ splitChar c b := by
  induction a with
  | nil => simp [splitChar]
  | cons x xs ih =>
    by_cases hx : x = c
    · simp only [List.cons_append, splitChar, if_pos hx, List.append_eq, ih]
    · simp only [List.cons_append, splitChar, if_neg hx, List.append_eq]
      cases h : splitChar c xs with
      | nil => exact absurd h (splitChar_ne_nil c xs)
      | cons y ys => rw [ih, h]; simp

/-- Splitting a separator-free list yields that single piece. -/
theorem splitChar_no_sep (c : Char) (a : List Char) (h : ∀ x ∈ a, x ≠ c) :
    splitChar c a = [a] := by
  induction a with
  | nil => simp [splitChar]
  | cons x xs ih =>
    have hx : x ≠ c := h x (List.mem_cons_self x xs)
    have hxs : splitChar c xs = [xs] := ih (fun y hy => h y (List.mem_cons_of_mem x hy))
    simp [splitChar, if_neg hx, hxs]

theorem str_mk_toList (s : String) : String.mk s.toList = s := rfl

theorem str_toList_append (s t : String) : (s ++ t).toList = s.toList ++ t.toList := by
  cases s
  cases t
  rfl

example : splitStr '/' "foo/bar/baz" = ["foo", "bar", "baz"] := by decide
example : splitStr '/' "" = [""] := by decide
example : splitStr '/' "/" = ["", ""] := by decide
example : relativize "foo/bar/baz" "foo/hey" = some "../../hey" := by decide
example : relativize "foo/bar/baz" "readme.md" = some "../../../readme.md" := by decide
example : relativize "" "readme.md" = some "readme.md" := by decide
example : relativize "foo/bar" "foo/bar/qux.txt" = some "foo/bar/qux.txt" := by decide
example : relativize "foo/bar/baz" "foo/bar/zoo" = some "../zoo" := by decide
example : relativize "foo" "" = none := by decide

/-- Appending the staged suffix appends exactly one token. -/
theorem tokens_append_cached (s : String) :
    tokens (s ++ " --cached") = tokens s ++ ["--cached"] := by
  unfold tokens splitStr
  rw [str_toList_append]
  rw [show (" --cached" : String).toList = ' ' :: ("--cached" : String).toList from rfl]
  rw [splitChar_append_sep]
  rw [show splitChar ' ' ("--cached" : String).toList
      = [("--cached" : String).toList] from rfl]
  rw [List.map_append]
  rfl

/-- The loop of `relativize` at a first divergence index `i`: it emits one
parent reference per remaining `from` component and the file name. -/
theorem relLoop_diverge_aux (to_file to_path : String) :
    ∀ (i : Nat) (fs ts : List String), i < fs.length →
      ts[i]? ≠ fs[i]? → (∀ j, j < i → ts[j]? = fs[j]?) →
      relLoop to_file to_path fs ts = repRef (fs.length - i) ++ to_file := by
  intro i
  induction i with
  | zero =>
    intro fs ts hi hdiv _
    cases fs with
    | nil => simp at hi
    | cons f fs =>
      cases ts with
      | nil => simp [relLoop]
      | cons t ts =>
        have hne : ¬ f = t := fun h => hdiv (by simp [h])
        simp [relLoop, if_neg hne]
  | succ i ih =>
    intro fs ts hi hdiv hpre
    cases fs with
    | nil => simp at hi
    | cons f fs =>
      have h0 := hpre 0 (Nat.succ_pos i)
      cases ts with
      | nil => simp at h0
      | cons t ts =>
        have ht : t = f := by simpa using h0
        subst ht
        have hi' : i < fs.length := Nat.succ_lt_succ_iff.mp (by simpa using hi)
        have hdiv' : ts[i]? ≠ fs[i]? := by
          simpa [List.getElem?_cons_succ] using hdiv
        have hpre' : ∀ j, j < i → ts[j]? = fs[j]? := by
          intro j hj
          simpa [List.getElem?_cons_succ] using hpre (j + 1) (Nat.succ_lt_succ hj)
        calc relLoop to_file to_path (t :: fs) (t :: ts)
            = relLoop to_file to_path fs ts := by simp [relLoop]
          _ = repRef (fs.length - i) ++ to_file := ih fs ts hi' hdiv' hpre'
          _ = repRef ((t :: fs).length - (i + 1)) ++ to_file := by
              simp [List.length_cons, Nat.succ_sub_succ]

/-- The loop of `relativize` when every `from` component is matched by the
corresponding component of the target directory: the unmodified path. -/
theorem relLoop_all_aux (to_file to_path : String) :
    ∀ (fs ts : List String), (∀ j, j < fs.length → ts[j]? = fs[j]?) →
      relLoop to_file to_path fs ts = to_path := by
  intro fs
  induction fs with
  | nil =>
    intro ts _
    simp [relLoop]
  | cons f fs ih =>
    intro ts hall
    have h0 := hall 0 (by simp)
    cases ts with
    | nil => simp at h0
    | cons t ts =>
      have ht : t = f := by simpa using h0
      subst ht
      have hall' : ∀ j, j < fs.length → ts[j]? = fs[j]? := by
        intro j hj
        simpa [List.getElem?_cons_succ] using hall (j + 1) (Nat.succ_lt_succ hj)
      simp [relLoop, ih ts hall']

/-- A successful `findAfter` exhibits an occurrence of the pattern. -/
theorem findAfter_some_occurrence (p : List Char) :
    ∀ s r, findAfter p s = some r → ∃ a, s = a ++ p ++ r := by
  intro s
  induction s with
  | nil =>
    intro r h
    unfold findAfter at h
    by_cases hp : List.isPrefixOf p ([] : List Char)
    · rw [if_pos hp] at h
      have hpl : p = [] := List.prefix_nil.mp ( List.isPrefixOf_iff_prefix.mp hp)
      injection h with h
      exact ⟨[], by simp [hpl, ← h]⟩
    · rw [if_neg hp] at h
      cases h
  | cons x xs ih =>
    intro r h
    unfold findAfter at h
    by_cases hp : List.isPrefixOf p (x :: xs)
    · rw [if_pos hp] at h
      injection h with h
      obtain ⟨t, ht⟩ := List.isPrefixOf_iff_prefix.mp hp
      have hdrop : (x :: xs).drop p.length = t := by rw [← ht, List.drop_left]
      refine ⟨[], ?_⟩
      rw [List.nil_append, ← h, hdrop]
      exact ht.symm
    · rw [if_neg hp] at h
      obtain ⟨a, ha⟩ := ih r h
      exact ⟨x :: a, by simp [ha]⟩

/-- An occurrence of the pattern makes `findAfter` succeed. -/
theorem findAfter_isSome_of_occurrence (p : List Char) :
    ∀ s a r, s = a ++ p ++ r → (findAfter p s).isSome := by
  intro s
  induction s with
  | nil =>
    intro a r h
    have hp : p = [] := ((List.append_eq_nil.mp
      (List.append_eq_nil.mp h.symm).1).2 : p = [])
    unfold findAfter
    rw [if_pos ( List.isPrefixOf_iff_prefix.mpr (by simp [hp]))]
    rfl
  | cons x xs ih =>
    intro a r h
    unfold findAfter
    by_cases hp : List.isPrefixOf p (x :: xs)
    · rw [if_pos hp]
      rfl
    · rw [if_neg hp]
      cases a with
      | nil =>
        exfalso
        apply hp
        rw [ List.isPrefixOf_iff_prefix]
        exact ⟨r, by simpa using h.symm⟩
      | cons y a =>
        have hx : x = y ∧ xs = a ++ (p ++ r) := by
          simpa using h
        exact ih a r (by rw [List.append_assoc]; exact hx.2)

/-- `findAfter` fails exactly when the pattern does not occur. -/
theorem findAfter_eq_none_iff (p s : List Char) :
    findAfter p s = none ↔ ∀ a r : List Char, s ≠ a ++ p ++ r := by
  constructor
  · intro h a r hocc
    have := findAfter_isSome_of_occurrence p s a r hocc
    rw [h] at this
    cases this
  · intro h
    cases hf : findAfter p s with
    | none => rfl
    | some r =>
      obtain ⟨a, ha⟩ := findAfter_some_occurrence p s r hf
      exact absurd ha (h a r)

/-- Claim C1 (code divergence, evaluated at the failing input): when
`from_dir` equals the directory component of `to_path`, the source code
of `relativize` returns `to_path` unchanged, not the base filename that
the specification requires; at `relativize "foo/bar" "foo/bar/qux.txt"`
the code yields `"foo/bar/qux.txt"`, which differs from the required
`"qux.txt"`. -/
theorem relativize_keeps_path_below_cwd :
    relativize "foo/bar" "foo/bar/qux.txt" = some "foo/bar/qux.txt" ∧
    ("foo/bar/qux.txt" : String) ≠ "qux.txt" := by
  constructor
  · decide
  · decide

/-- Claim C2 (counterexample): the DiffMode enumeration of the source has
five variants, not the six stated by the claim. -/
theorem diffMode_has_five_variants :
    Fintype.card DiffMode = 5 ∧ (5 : Nat) ≠ 6 := by
  constructor
  · decide
  · decide

/-- Claim C2, amended: DiffMode is a closed enumeration with exactly the
five variants Branch, Remote, Revlist, RevlistRemote and Upstream (there
is no WorkingTree variant), and each invocation carries exactly one
active mode in its parsed arguments. -/
theorem diffMode_closed_enumeration :
    (∀ m : DiffMode, m = DiffMode.Branch ∨ m = DiffMode.Remote ∨ m = DiffMode.Revlist ∨
      m = DiffMode.RevlistRemote ∨ m = DiffMode.Upstream) ∧
    Fintype.card DiffMode = 5 ∧
    (∀ a : Args, ∃! m : DiffMode, a.diff_mode = m) := by
  refine ⟨?_, ?_, ?_⟩
  · intro m
    cases m
    · exact Or.inl rfl
    · exact Or.inr (Or.inl rfl)
    · exact Or.inr (Or.inr (Or.inl rfl))
    · exact Or.inr (Or.inr (Or.inr (Or.inl rfl)))
    · exact Or.inr (Or.inr (Or.inr (Or.inr rfl)))
  · decide
  · intro a
    exact ⟨a.diff_mode, rfl, fun y hy => hy.symm⟩

/-- Claim C3: whenever the lock-step walk of the components of `from_dir`
against the directory components of `to_path` first diverges at index `i`
(the components differ there, or the target directory has run out),
`relativize` returns one `../` per `from_dir` component from `i` to the
end, followed by the base filename of `to_path`. -/
theorem relativize_diverge (from_ to_ to_dir to_file : String) (i : Nat)
    (hfrom : from_ ≠ "")
    (hparent : pathParent to_ = some to_dir)
    (hfile : pathFileName to_ = some to_file)
    (hi : i < (splitSlash (stripSlash from_)).length)
    (hdiv : (splitSlash to_dir)[i]? ≠ (splitSlash (stripSlash from_))[i]?)
    (hpre : ∀ j, j < i → (splitSlash to_dir)[j]? = (splitSlash (stripSlash from_))[j]?) :
    relativize from_ to_ =
      some (repRef ((splitSlash (stripSlash from_)).length - i) ++ to_file) := by
  unfold relativize
  rw [if_neg hfrom, hparent, hfile]
  exact congrArg some
    (relLoop_diverge_aux to_file to_ i (splitSlash (stripSlash from_)) (splitSlash to_dir)
      hi hdiv hpre)

/-- Witness for C3 at the first worked example of the specification. -/
theorem relativize_diverge_witness :
    relativize "foo/bar/baz" "foo/hey" = some "../../hey" :=
  (relativize_diverge "foo/bar/baz" "foo/hey" "foo" "hey" 1 (by decide) (by decide)
    (by decide) (by decide) (by decide) (by decide)).trans (by decide)

/-- Claim C4: `relativize` is the identity on `to_path` when `from_dir`
is empty, and also whenever the lock-step comparison finds no divergence
point, that is, every `from_dir` component is matched by the
corresponding component of the directory of `to_path`. -/
theorem relativize_identity :
    (∀ to_, relativize "" to_ = some to_) ∧
    (∀ from_ to_ to_dir to_file,
      pathParent to_ = some to_dir → pathFileName to_ = some to_file →
      (∀ j, j < (splitSlash (stripSlash from_)).length →
        (splitSlash to_dir)[j]? = (splitSlash (stripSlash from_))[j]?) →
      relativize from_ to_ = some to_) := by
  constructor
  · intro to_
    simp [relativize]
  · intro from_ to_ to_dir to_file hparent hfile hall
    by_cases hf : from_ = ""
    · simp [relativize, hf]
    · unfold relativize
      rw [if_neg hf, hparent, hfile]
      exact congrArg some
        (relLoop_all_aux to_file to_ (splitSlash (stripSlash from_)) (splitSlash to_dir) hall)

/-- Witness for C4: the root case and the no-divergence case of the
specification, at concrete inputs. -/
theorem relativize_identity_witness :
    relativize "" "readme.md" = some "readme.md" ∧
    relativize "foo/bar" "foo/bar/qux.txt" = some "foo/bar/qux.txt" :=
  ⟨relativize_identity.1 "readme.md",
   relativize_identity.2 "foo/bar" "foo/bar/qux.txt" "foo/bar" "qux.txt"
     (by decide) (by decide) (by decide)⟩

/-- Claim C5: for every diff mode and every planned base command free of a
`--cached` token (as every command built from git-legal remote and branch
names is), the full command carries exactly one `--cached` token when the
staged-changes probe output is non-empty and zero otherwise, and the
staged suffix only appends to the base command, leaving the base ref
unchanged. -/
theorem staged_cached_token (git : List String → Except String String) (mode : DiffMode)
    (remote default_branch base shortstat_stdout : String)
    (hplan : planDiffCmd git mode remote default_branch = Except.ok base)
    (hbase : (tokens base).count "--cached" = 0) :
    ∃ cmd,
      fullDiffCmd git mode remote default_branch (is_staged shortstat_stdout) = Except.ok cmd ∧
      (tokens cmd).count "--cached" = (if shortstat_stdout.isEmpty then 0 else 1) ∧
      (shortstat_stdout.isEmpty = true → cmd = base) ∧
      (shortstat_stdout.isEmpty = false → cmd = base ++ " --cached") := by
  unfold fullDiffCmd is_staged
  rw [hplan]
  cases h : shortstat_stdout.isEmpty with
  | true =>
    refine ⟨base, ?_, ?_, ?_, ?_⟩
    · simp
    · simp [hbase]
    · intro
      rfl
    · simp
  | false =>
    refine ⟨base ++ " --cached", ?_, ?_, ?_, ?_⟩
    · simp
    · rw [tokens_append_cached]
      simp [List.count_append, hbase]
    · simp
    · intro
      rfl

/-- Witness for C5 in mode Branch with staged changes present. -/
theorem staged_cached_token_witness :
    ∃ cmd,
      fullDiffCmd (fun _ => Except.error "") DiffMode.Branch "origin" "main"
        (is_staged "1 file changed") = Except.ok cmd ∧
      (tokens cmd).count "--cached" = (if ("1 file changed" : String).isEmpty then 0 else 1) ∧
      (("1 file changed" : String).isEmpty = true → cmd = "diff main") ∧
      (("1 file changed" : String).isEmpty = false → cmd = "diff main" ++ " --cached") :=
  staged_cached_token (fun _ => Except.error "") DiffMode.Branch "origin" "main"
    "diff main" "1 file changed" rfl (by decide)

/-- Claim C6: in mode Revlist the planned command is `diff HEAD~N` and in
mode RevlistRemote it is `diff <remote>/HEAD~N`, where both times N is
exactly the string returned by the git query
`rev-list --count HEAD ^<default_branch>`. -/
theorem revlist_diff_commands (git : List String → Except String String)
    (remote default_branch n : String)
    (h : git (revListArgs default_branch) = Except.ok n) :
    revListArgs default_branch = ["rev-list", "--count", "HEAD", "^" ++ default_branch] ∧
    planDiffCmd git DiffMode.Revlist remote default_branch = Except.ok ("diff HEAD~" ++ n) ∧
    planDiffCmd git DiffMode.RevlistRemote remote default_branch =
      Except.ok ("diff " ++ remote ++ "/HEAD~" ++ n) := by
  refine ⟨rfl, ?_, ?_⟩ <;> simp [planDiffCmd, h]

/-- Witness for C6 with an oracle answering 3 to the rev-list query. -/
theorem revlist_diff_commands_witness :
    revListArgs "main" = ["rev-list", "--count", "HEAD", "^" ++ "main"] ∧
    planDiffCmd (fun args => if args = revListArgs "main" then Except.ok "3" else Except.error "e")
      DiffMode.Revlist "origin" "main" = Except.ok ("diff HEAD~" ++ "3") ∧
    planDiffCmd (fun args => if args = revListArgs "main" then Except.ok "3" else Except.error "e")
      DiffMode.RevlistRemote "origin" "main" = Except.ok ("diff " ++ "origin" ++ "/HEAD~" ++ "3") :=
  revlist_diff_commands
    (fun args => if args = revListArgs "main" then Except.ok "3" else Except.error "e")
    "origin" "main" "3" (by simp)

/-- Claim C7 (counterexample): at the trimmed content
`ref: refs/remotes/origin/`, the pattern stated by the claim (with a
non-empty `(.+)` capture) does not match, yet the source regex, whose
capture is `(.*)`, matches and `get_default_branch` returns the empty
branch name, so the run proceeds with an empty branch instead of failing
fatally. -/
theorem default_branch_empty_capture :
    claimHeadPattern "origin" "ref: refs/remotes/origin/" = none ∧
    get_default_branch "origin" "ref: refs/remotes/origin/" = some "" ∧
    unwrapDefaultBranch "origin" "ref: refs/remotes/origin/" = Except.ok "" := by
  refine ⟨?_, ?_, ?_⟩
  · decide
  · decide
  · rfl

/-- Claim C7, amended: default-branch resolution returns no branch name
exactly when the trimmed remote-HEAD content contains no occurrence of
the literal `ref: refs/remotes/<remote>/`, and in that case the unwrap in
main fails fatally; when the content does match, the captured suffix
after the leftmost occurrence, which may be empty since the source
pattern is `(.*)`, is returned. -/
theorem default_branch_resolution (remote content : String) :
    (get_default_branch remote content = none ↔
      ∀ a r : List Char,
        (trimAscii content).toList ≠ a ++ (remoteHeadRef remote).toList ++ r) ∧
    (∀ b, get_default_branch remote content = some b →
      ∃ a : List Char,
        (trimAscii content).toList = a ++ (remoteHeadRef remote).toList ++ b.toList) ∧
    (get_default_branch remote content = none →
      unwrapDefaultBranch remote content =
        Except.error "called Option unwrap on a None value") := by
  refine ⟨?_, ?_, ?_⟩
  · unfold get_default_branch
    rw [Option.map_eq_none']
    exact findAfter_eq_none_iff _ _
  · intro b hb
    unfold get_default_branch at hb
    rw [Option.map_eq_some'] at hb
    obtain ⟨r, hr, hmk⟩ := hb
    obtain ⟨a, ha⟩ := findAfter_some_occurrence _ _ _ hr
    subst hmk
    exact ⟨a, ha⟩
  · intro h
    unfold unwrapDefaultBranch
    rw [h]

/-- Witness for C7 at a well-formed remote-HEAD content. -/
theorem default_branch_resolution_witness :
    ∃ a : List Char,
      (trimAscii "ref: refs/remotes/origin/main").toList =
        a ++ (remoteHeadRef "origin").toList ++ ("main" : String).toList :=
  (default_branch_resolution "origin" "ref: refs/remotes/origin/main").2.1 "main" (by decide)

/-- Claim C8: remote resolution returns the explicit override when given;
otherwise, an error of the upstream query yields the fixed fallback
`origin`, and a successful query yields the first slash-separated
component of the upstream tracking ref name. -/
theorem remote_resolution (upstream : Except String String) (r c rest e : String) :
    (resolveRemote (some r) upstream = r) ∧
    (resolveRemote none (Except.error e) = "origin") ∧
    ((∀ ch ∈ c.toList, ch ≠ '/') →
      resolveRemote none (Except.ok (c ++ "/" ++ rest)) = c) ∧
    ((∀ ch ∈ c.toList, ch ≠ '/') → resolveRemote none (Except.ok c) = c) := by
  refine ⟨rfl, rfl, ?_, ?_⟩
  · intro hc
    simp only [resolveRemote, get_remote, splitStr]
    rw [str_toList_append, str_toList_append]
    rw [show ("/" : String).toList = ['/'] from rfl]
    simp only [List.append_assoc, List.cons_append, List.nil_append]
    rw [splitChar_append_sep, splitChar_no_sep '/' c.toList hc]
    simp [str_mk_toList]
  · intro hc
    simp only [resolveRemote, get_remote, splitStr]
    rw [splitChar_no_sep '/' c.toList hc]
    simp [str_mk_toList]

/-- Witness for C8 at the upstream name origin/main. -/
theorem remote_resolution_witness :
    resolveRemote none (Except.ok ("origin" ++ "/" ++ "main")) = "origin" :=
  (remote_resolution (Except.ok "x") "r" "origin" "main" "e").2.2.1 (by decide)

/-- Claim C9: when every line of the name-only diff output is empty, the
changed-file list is empty and the run returns cleanly at the guard,
before relativization and selection. -/
theorem empty_diff_exits_clean (stdout : String)
    (h : ∀ l ∈ splitChar '\n' stdout.toList, l = ([] : List Char)) :
    listFiles stdout = [] ∧ afterListing (listFiles stdout) = RunOutcome.exitClean := by
  have hnil : listFiles stdout = [] := by
    unfold listFiles splitStr
    rw [List.filter_eq_nil_iff]
    intro s hs
    obtain ⟨l, hl, hmk⟩ := List.mem_map.mp hs
    have hle : l = [] := h l hl
    subst hle
    subst hmk
    decide
  exact ⟨hnil, by rw [hnil]; rfl⟩

/-- Witness for C9 at the empty diff output. -/
theorem empty_diff_exits_clean_witness :
    listFiles "" = [] ∧ afterListing (listFiles "") = RunOutcome.exitClean :=
  empty_diff_exits_clean "" (by decide)

/-- Claim C10: `relativize` panics on some inputs with a non-empty
`from_dir` and no parent-and-filename decomposition of `to_path` — at
the empty path the parent extraction fails, and at a path terminating in
`..` the file-name extraction fails; but whenever `to_path` is non-empty
and its final component is an actual filename (non-empty and neither `.`
nor `..`), no panic branch is reachable and a result is always
produced. -/
theorem relativize_total (from_ to_ : String)
    (hto : to_ ≠ "")
    (hlast : (splitSlash to_).getLast? ≠ some "" ∧ (splitSlash to_).getLast? ≠ some "." ∧
      (splitSlash to_).getLast? ≠ some "..") :
    relativize "foo" "" = none ∧ relativize "foo" ".." = none ∧
    (relativize from_ to_).isSome := by
  refine ⟨by decide, by decide, ?_⟩
  by_cases hf : from_ = ""
  · simp [relativize, hf]
  · have hne : splitSlash to_ ≠ [] := by
      unfold splitSlash splitStr
      intro hmap
      exact splitChar_ne_nil '/' to_.toList (List.map_eq_nil_iff.mp hmap)
    obtain ⟨l, hl⟩ := Option.isSome_iff_exists.mp (List.getLast?_isSome.mpr hne)
    have h1 : l ≠ "" := fun hcon => hlast.1 (hcon ▸ hl)
    have h2 : l ≠ "." := fun hcon => hlast.2.1 (hcon ▸ hl)
    have h3 : l ≠ ".." := fun hcon => hlast.2.2 (hcon ▸ hl)
    have hparent : pathParent to_ =
        some (String.intercalate "/" (splitSlash to_).dropLast) := by
      simp [pathParent, hto]
    have hfile : pathFileName to_ = some l := by
      simp [pathFileName, hto, hl, h1, h2, h3]
    unfold relativize
    rw [if_neg hf, hparent, hfile]
    rfl

/-- Witness for C10 at a bare filename below the repository root. -/
theorem relativize_total_witness :
    relativize "foo" "" = none ∧ relativize "foo" ".." = none ∧
    (relativize "a" "b.txt").isSome :=
  relativize_total "a" "b.txt" (by decide) (by decide)
